import Mathlib

/-!
Verification of the gt_trading_client core against its specification.

The definitions below are a shallow embedding of the Python sources:
  - src/gt_trading_client/raw_orderbook.py       (OrderBook)
  - src/gt_trading_client/filtered_orderbook.py  (FilteredOrderBook)
  - src/gt_trading_client/user_portfolio.py      (UserPortfolio)
  - src/gt_trading_client/prioritizer.py         (Prioritizer)
  - src/gt_trading_client/websocket_client.py    (WebSocketClient)

Modelling conventions:
  - Python floats are modelled as rationals (Rat); the arithmetic the spec
    claims concern is exact at every input considered here.
  - A SortedDict is modelled as an association list kept in key order
    (descending for bids, ascending for asks); peekitem(0) is List.head?.
  - A Python dict (ticker map, JSON object) is an insertion-ordered
    association list; new keys are appended, existing keys updated in place.
  - Raised exceptions are modelled as an error component in the result;
    because Python mutation survives a raise, update operations return the
    partially-mutated state together with the error.
-/

namespace DataChallenge

/-- One side of a ticker's book: an ordered price → volume association list
(the SortedDict of raw_orderbook.py). -/
abbrev Side := List (Rat × Rat)

/-- Association-list lookup of a price level on one side. -/
def lookupSide (p : Rat) : Side → Option Rat
  | [] => none
  | (q, v) :: rest => if q = p then some v else lookupSide p rest

/-- Insertion into a bid side (descending key order), replacing an existing
key in place: mirrors `SortedDict(lambda x: -x)[price] = volume`. -/
def insertDesc (p v : Rat) : Side → Side
  | [] => [(p, v)]
  | (q, w) :: rest =>
    if q < p then (p, v) :: (q, w) :: rest
    else if q = p then (p, v) :: rest
    else (q, w) :: insertDesc p v rest

/-- Insertion into an ask side (ascending key order), replacing an existing
key in place: mirrors `SortedDict()[price] = volume`. -/
def insertAsc (p v : Rat) : Side → Side
  | [] => [(p, v)]
  | (q, w) :: rest =>
    if p < q then (p, v) :: (q, w) :: rest
    else if q = p then (p, v) :: rest
    else (q, w) :: insertAsc p v rest

/-- Removal of a price level: mirrors `side.pop(price, None)` (no-op when the
key is absent). -/
def eraseSide (p : Rat) : Side → Side
  | [] => []
  | (q, w) :: rest => if q = p then eraseSide p rest else (q, w) :: eraseSide p rest

/-- The two sides of one ticker's book. -/
structure TickerBook where
  bids : Side
  asks : Side
deriving DecidableEq

/-- The empty two-sided book auto-created for an unknown ticker. -/
def emptyBook : TickerBook := ⟨[], []⟩

/-- The `self._orderbooks` dict: ticker → two-sided book, insertion ordered. -/
abbrev OBState := List (String × TickerBook)

/-- Dict lookup `self._orderbooks[ticker]` (None instead of KeyError here;
the query methods turn absence into a KeyError result). -/
def lookupTicker (t : String) : OBState → Option TickerBook
  | [] => none
  | (t', b) :: rest => if t' = t then some b else lookupTicker t rest

/-- In-place modification of an existing ticker's book. -/
def modifyTicker (t : String) (f : TickerBook → TickerBook) : OBState → OBState
  | [] => []
  | (t', b) :: rest =>
    if t' = t then (t', f b) :: rest else (t', b) :: modifyTicker t f rest

/-- Auto-creation of an empty two-sided book for an unknown ticker
(`if ticker not in self._orderbooks: ...`); Python dicts append new keys. -/
def ensureTicker (t : String) (s : OBState) : OBState :=
  match lookupTicker t s with
  | some _ => s
  | none => s ++ [(t, emptyBook)]

/-- Query side selector used when stating per-level properties. -/
inductive OrderSide where
  | BID
  | ASK
deriving DecidableEq

/-- The stored volume at an exact (ticker, side, price) key, if any. -/
def lookupVolume (s : OBState) (t : String) (sd : OrderSide) (p : Rat) : Option Rat :=
  match lookupTicker t s with
  | none => none
  | some b => lookupSide p (match sd with | .BID => b.bids | .ASK => b.asks)

/-- One wire update entry as seen by `OrderBook.update_volumes`: a dict whose
four required fields may each be missing (None marks a missing or
unconvertible field; either raises at the same program point). -/
structure UpdateEntry where
  ticker : Option String
  price : Option Rat
  side : Option String
  volume : Option Rat
deriving DecidableEq

/-- The two ValueError exits of `OrderBook.update_volumes`. -/
inductive UpdateError where
  | malformedEntry
  | badSide
deriving DecidableEq

/-- `update["side"].upper()`: character-wise upper-casing (the sides on this
wire are ASCII). -/
def normSide (s : String) : String := ⟨s.data.map Char.toUpper⟩

/-- All four required fields present (the per-entry validation check). -/
def allFieldsPresent (u : UpdateEntry) : Bool :=
  u.ticker.isSome && u.price.isSome && u.side.isSome && u.volume.isSome

/-- A fully applicable entry: fields present and side normalising to
BID or ASK. -/
def wellFormedEntry (u : UpdateEntry) : Bool :=
  allFieldsPresent u &&
    (decide (normSide (u.side.getD "") = "BID") || decide (normSide (u.side.getD "") = "ASK"))

/-- The portfolio open-order record (config/order.py Order). The side is the
raw stored value; `OrderSide.BID` is the string "BID" (str-valued enum). -/
structure Order where
  ticker : String
  price : Rat
  volume : Rat
  side : String

namespace OrderBook

/-- Body of one loop iteration of `OrderBook.update_volumes` after the field
validation: auto-create the ticker, then per side delete (volume 0) or
insert/overwrite, or raise on an unknown side. Returns the state reached
together with the error, if one was raised. -/
def applyValidEntry (s : OBState) (t : String) (p : Rat) (sd : String) (v : Rat) :
    OBState × Option UpdateError :=
  let s' := ensureTicker t s
  if normSide sd = "BID" then
    if v = 0 then (modifyTicker t (fun b => ⟨eraseSide p b.bids, b.asks⟩) s', none)
    else (modifyTicker t (fun b => ⟨insertDesc p v b.bids, b.asks⟩) s', none)
  else if normSide sd = "ASK" then
    if v = 0 then (modifyTicker t (fun b => ⟨b.bids, eraseSide p b.asks⟩) s', none)
    else (modifyTicker t (fun b => ⟨b.bids, insertAsc p v b.asks⟩) s', none)
  else (s', some .badSide)

/-- `OrderBook.update_volumes(updates, orders)`: each entry is validated and
applied in turn; an error stops the loop, keeping the mutations already
made (Python state survives the raise). The `orders` argument is unused,
exactly as in the source. -/
def update_volumes : OBState → List UpdateEntry → List (String × List Order) →
    OBState × Option UpdateError
  | s, [], _ => (s, none)
  | s, u :: rest, orders =>
    match u.ticker, u.price, u.side, u.volume with
    | some t, some p, some sd, some v =>
      match applyValidEntry s t p sd v with
      | (s', none) => update_volumes s' rest orders
      | (s', some e) => (s', some e)
    | _, _, _, _ => (s, some .malformedEntry)

/-- Result of a query method that can raise KeyError on an unknown ticker. -/
inductive KeyedResult (α : Type) where
  | keyError
  | found (a : α)
deriving DecidableEq

/-- `OrderBook.best_bid`: KeyError on unknown ticker, None on an empty bid
side, else the first (highest-price) bid level. -/
def best_bid (s : OBState) (t : String) : KeyedResult (Option (Rat × Rat)) :=
  match lookupTicker t s with
  | none => .keyError
  | some b => .found b.bids.head?

/-- `OrderBook.best_ask`: KeyError on unknown ticker, None on an empty ask
side, else the first (lowest-price) ask level. -/
def best_ask (s : OBState) (t : String) : KeyedResult (Option (Rat × Rat)) :=
  match lookupTicker t s with
  | none => .keyError
  | some b => .found b.asks.head?

/-- `OrderBook.mid`. -/
def mid (s : OBState) (t : String) : KeyedResult (Option Rat) :=
  match best_bid s t, best_ask s t with
  | .found (some (bp, _)), .found (some (ap, _)) => .found (some ((bp + ap) / 2))
  | .found _, .found _ => .found none
  | _, _ => .keyError

/-- `OrderBook.wmid`. -/
def wmid (s : OBState) (t : String) : KeyedResult (Option Rat) :=
  match best_bid s t, best_ask s t with
  | .found (some (bp, bv)), .found (some (ap, av)) =>
      .found (some ((bp * av + ap * bv) / (bv + av)))
  | .found _, .found _ => .found none
  | _, _ => .keyError

/-- `OrderBook.spread`. -/
def spread (s : OBState) (t : String) : KeyedResult (Option Rat) :=
  match best_bid s t, best_ask s t with
  | .found (some (bp, _)), .found (some (ap, _)) => .found (some (ap - bp))
  | .found _, .found _ => .found none
  | _, _ => .keyError

end OrderBook

/-- Flattening of the open-orders dict in its iteration order, mirroring
`for order_list_per_ticker in orders.values(): for order in ...`. -/
def flattenOrders (od : List (String × List Order)) : List Order :=
  (od.map (fun e => e.2)).flatten

namespace FilteredOrderBook

/-- One open-order subtraction on the filtered snapshot (the body of the
double loop in `FilteredOrderBook.update_volumes`): skip unless the order's
ticker and exact price level are present; subtract the order's volume from
the matching side (`order.side == OrderSide.BID` selects bids, anything else
asks); remove the level exactly when the new volume equals 0. -/
def subtractOrder (s : OBState) (o : Order) : OBState :=
  match lookupTicker o.ticker s with
  | none => s
  | some b =>
    if o.side = "BID" then
      match lookupSide o.price b.bids with
      | none => s
      | some v =>
        modifyTicker o.ticker
          (fun bk =>
            ⟨if v - o.volume = 0
              then eraseSide o.price (insertDesc o.price (v - o.volume) b.bids)
              else insertDesc o.price (v - o.volume) b.bids,
             bk.asks⟩) s
    else
      match lookupSide o.price b.asks with
      | none => s
      | some v =>
        modifyTicker o.ticker
          (fun bk =>
            ⟨bk.bids,
             if v - o.volume = 0
              then eraseSide o.price (insertAsc o.price (v - o.volume) b.asks)
              else insertAsc o.price (v - o.volume) b.asks⟩) s

/-- All open-order subtractions, in dict-then-list iteration order. -/
def subtractOrders (s : OBState) (os : List Order) : OBState :=
  os.foldl subtractOrder s

end FilteredOrderBook

/-- The two views held by a FilteredOrderBook: the wrapped raw OrderBook
(`self._orderbook.orderbooks`) and the materialized filtered snapshot
(`self._orderbooks`). -/
structure FOBState where
  raw : OBState
  filtered : OBState
deriving DecidableEq

namespace FilteredOrderBook

/-- `FilteredOrderBook.update_volumes(updates, orders)`: forward the updates
to the raw book; if that raises, the exception propagates before the filtered
snapshot is rebuilt (the raw book keeps its partial mutation); otherwise the
filtered snapshot becomes a deep copy of the raw state with every open order
subtracted. -/
def update_volumes (fob : FOBState) (updates : List UpdateEntry)
    (orders : List (String × List Order)) : FOBState × Option UpdateError :=
  match OrderBook.update_volumes fob.raw updates orders with
  | (raw', some e) => (⟨raw', fob.filtered⟩, some e)
  | (raw', none) => (⟨raw', subtractOrders raw' (flattenOrders orders)⟩, none)

end FilteredOrderBook

/-- Sliding-window pruning, `Prioritizer._update_rate_limit_window`:
pop from the left while the oldest timestamp is older than now − 1s. -/
def pruneWindow (now : Rat) (w : List Rat) : List Rat :=
  w.dropWhile (fun ts => decide (ts < now - 1))

namespace Prioritizer

/-- `Prioritizer.place_limit` admission logic: prune, reject (False) without
touching the window further when it already holds at least `limit`
timestamps, else append now and forward (True). -/
def place_limit (limit : Nat) (w : List Rat) (now : Rat) : List Rat × Bool :=
  let w' := pruneWindow now w
  if limit ≤ w'.length then (w', false) else (w' ++ [now], true)

/-- `Prioritizer.place_market` admission logic (same body as place_limit). -/
def place_market (limit : Nat) (w : List Rat) (now : Rat) : List Rat × Bool :=
  let w' := pruneWindow now w
  if limit ≤ w'.length then (w', false) else (w' ++ [now], true)

/-- `Prioritizer.remove_all` admission logic (same body as place_limit). -/
def remove_all (limit : Nat) (w : List Rat) (now : Rat) : List Rat × Bool :=
  let w' := pruneWindow now w
  if limit ≤ w'.length then (w', false) else (w' ++ [now], true)

/-- A sequence of place_limit calls at the given instants, returning the
final window and how many calls were forwarded to the trading client. -/
def runLimitCalls (limit : Nat) : List Rat → List Rat → List Rat × Nat
  | [], w => (w, 0)
  | t :: ts, w =>
    match place_limit limit w t with
    | (w', forwarded) =>
      match runLimitCalls limit ts w' with
      | (wf, n) => (wf, (if forwarded then 1 else 0) + n)

end Prioritizer

/-- A per-ticker position entry of `UserPortfolio._positions`. -/
structure Position where
  quantity : Rat
  averagePrice : Rat
deriving DecidableEq

/-- The positions dict. -/
abbrev Positions := List (String × Position)

/-- Dict lookup in the positions map. -/
def lookupPos (t : String) : Positions → Option Position
  | [] => none
  | (t', p) :: rest => if t' = t then some p else lookupPos t rest

/-- Dict assignment in the positions map (update in place, append if new). -/
def setPos (t : String) (pos : Position) : Positions → Positions
  | [] => [(t, pos)]
  | (t', p) :: rest =>
    if t' = t then (t', pos) :: rest else (t', p) :: setPos t pos rest

namespace UserPortfolio

/-- `UserPortfolio.add_position(ticker, position_delta, price)`: default a
missing ticker to quantity 0 / averagePrice 0, then run the in-place
sequence `ap *= q; ap += delta*price; q += delta;
if q == 0: ap = 0 else ap /= q`. -/
def add_position (ps : Positions) (t : String) (delta price : Rat) : Positions :=
  let prev := (lookupPos t ps).getD ⟨0, 0⟩
  let ap := prev.averagePrice * prev.quantity + delta * price
  let q := prev.quantity + delta
  if q = 0 then setPos t ⟨q, 0⟩ ps else setPos t ⟨q, ap / q⟩ ps

end UserPortfolio

/-- A parsed JSON value (result of `json.loads`). -/
inductive JValue where
  | str (s : String)
  | num (q : Rat)
  | jbool (b : Bool)
  | null
  | arr (elems : List JValue)
  | obj (fields : List (String × JValue))

/-- JSON-object field lookup (first matching key). -/
def jget (k : String) : List (String × JValue) → Option JValue
  | [] => none
  | (k', v) :: rest => if k' = k then some v else jget k rest

/-- Python truthiness of a JSON value (`if json_body`). -/
def truthy : JValue → Bool
  | .str s => !decide (s = "")
  | .num q => !decide (q = 0)
  | .jbool b => b
  | .null => false
  | .arr xs => !xs.isEmpty
  | .obj fs => !fs.isEmpty

/-- Equality of a JSON value with a given Python string (used by list
membership). -/
def jstrEq (k : String) : JValue → Bool
  | .str s => decide (s = k)
  | _ => false

/-- Substring containment, Python `pat in s` for strings. -/
def strContains (s pat : String) : Bool := decide (2 ≤ (s.splitOn pat).length)

/-- Python `k in json_body`: key membership for objects, element membership
for arrays, substring for strings; TypeError (modelled none) otherwise. -/
def jmem (k : String) : JValue → Option Bool
  | .obj fs => some (fs.any (fun e => decide (e.1 = k)))
  | .arr xs => some (xs.any (jstrEq k))
  | .str s => some (strContains s k)
  | _ => none

/-- Python `json_body[k]`: field access on objects; TypeError/KeyError
(modelled none) otherwise. -/
def jindex (v : JValue) (k : String) : Option JValue :=
  match v with
  | .obj fs => jget k fs
  | _ => none

/-- Digit-string to Nat, when every character is a digit. -/
def digitsVal? (s : String) : Option Nat :=
  if s.toList.all Char.isDigit then
    some (s.toList.foldl (fun n c => n * 10 + (c.toNat - 48)) 0)
  else none

/-- Unsigned decimal literal to Rat: `"12"`, `"12.5"`, `"12."`, `".5"`. -/
def parseUnsignedDecimal (s : String) : Option Rat :=
  match s.splitOn "." with
  | [ip] =>
    match digitsVal? ip with
    | some n => if ip = "" then none else some (n : Rat)
    | none => none
  | [ip, fp] =>
    if ip = "" && fp = "" then none
    else
      match digitsVal? ip, digitsVal? fp with
      | some n, some f => some ((n : Rat) + (f : Rat) / ((10 : Rat) ^ fp.length))
      | _, _ => none
  | _ => none

/-- Python `float(s)` on a string: optional sign around a decimal literal,
surrounding whitespace stripped (exotic forms such as exponents are out of
scope of every claim considered). -/
def parseDecimal (s : String) : Option Rat :=
  let t := s.trim
  if t.startsWith "-" then (parseUnsignedDecimal (t.drop 1)).map Neg.neg
  else if t.startsWith "+" then parseUnsignedDecimal (t.drop 1)
  else parseUnsignedDecimal t

/-- Python `float(value)` on a JSON value: numbers and booleans convert,
numeric strings parse, anything else raises (modelled none). -/
def jfloat : JValue → Option Rat
  | .num q => some q
  | .jbool b => some (if b then 1 else 0)
  | .str s => parseDecimal s
  | _ => none

/-- Conversion of one decoded update element into the entry consumed by
`OrderBook.update_volumes`: a non-dict element, or a missing field, or a
field whose extraction/conversion raises, leaves the corresponding slot
empty (each such entry stops the batch at the same program point). -/
def jToUpdateEntry : JValue → UpdateEntry
  | .obj fs =>
    { ticker := (jget "ticker" fs).bind (fun x => match x with | .str s => some s | _ => none)
      price := (jget "price" fs).bind jfloat
      side := (jget "side" fs).bind (fun x => match x with | .str s => some s | _ => none)
      volume := (jget "volume" fs).bind jfloat }
  | _ => ⟨none, none, none, none⟩

/-- The portfolio state mutated by `UserPortfolio.update_portfolio`
(`positions` and `username` are stored raw, exactly as the source assigns
them). -/
structure PortfolioModel where
  balance : Rat
  pnl : Rat
  positions : JValue
  username : Option JValue
  orders : List (String × List Order)

/-- The clean-slate portfolio of the constructor. -/
def emptyPortfolio : PortfolioModel := ⟨0, 0, .obj [], none, []⟩

namespace UserPortfolio

/-- Parsing of one order dict from the Orders push payload: the four keys
are required (KeyError raises, modelled none); numeric fields must be JSON
numbers; a non-string side is stored as a value that compares unequal to
"BID". -/
def parseOrderVal (ticker : String) : JValue → Option Order
  | .obj fs =>
    match jget "volume" fs, jget "price" fs, jget "side" fs, jget "orderId" fs with
    | some (.num vq), some (.num pq), some sv, some _ =>
      some ⟨ticker, pq, vq, (match sv with | .str s => s | _ => "")⟩
    | _, _, _, _ => none
  | _ => none

/-- Inner loop over one ticker's order list; an error keeps the orders
already built (Python appends them before raising). -/
def parseTickerOrders (t : String) : List JValue → List Order × Bool
  | [] => ([], false)
  | v :: rest =>
    match parseOrderVal t v with
    | none => ([], true)
    | some o =>
      match parseTickerOrders t rest with
      | (os, raised) => (o :: os, raised)

/-- Outer loop over the Orders dict; an error keeps the tickers already
processed. -/
def parseOrdersLoop : List (String × JValue) → List (String × List Order) →
    List (String × List Order) × Bool
  | [], acc => (acc, false)
  | (t, v) :: rest, acc =>
    match v with
    | .arr elems =>
      match parseTickerOrders t elems with
      | (os, false) => parseOrdersLoop rest (acc ++ [(t, os)])
      | (os, true) => (acc ++ [(t, os)], true)
    | _ => (acc ++ [(t, [])], true)

/-- `UserPortfolio.update_portfolio(message)`: a non-dict message is logged
and ignored; otherwise balance, pnl, positions, username and orders are
replaced field by field, so a raise mid-way (bad float, malformed order)
keeps the assignments already made. The Bool marks a raised exception. -/
def update_portfolio (p : PortfolioModel) (jb : JValue) : PortfolioModel × Bool :=
  match jb with
  | .obj fs =>
    match jfloat ((jget "balance" fs).getD (.num 0)) with
    | none => (p, true)
    | some bal =>
      match jfloat ((jget "pnl" fs).getD (.num 0)) with
      | none => ({ p with balance := bal }, true)
      | some pnlv =>
        let base : PortfolioModel :=
          { balance := bal, pnl := pnlv
            positions := (jget "positions" fs).getD (.obj [])
            username := jget "username" fs
            orders := [] }
        match jget "Orders" fs with
        | some (.obj ofs) =>
          match parseOrdersLoop ofs [] with
          | (ords, raised) => ({ base with orders := ords }, raised)
        | _ => (base, false)
  | _ => (p, false)

end UserPortfolio

/-- Which of the four effects `WebSocketClient._on_message` performed. -/
structure HandlerActions where
  orderbookUpdated : Bool
  orderbookCallback : Bool
  portfolioReplaced : Bool
  portfolioCallback : Bool
deriving DecidableEq

/-- No effect at all. -/
def noActions : HandlerActions := ⟨false, false, false, false⟩

/-- The mutable state `_on_message` can touch. -/
structure ClientState where
  fob : FOBState
  portfolio : PortfolioModel

namespace WebSocketClient

/-- `WebSocketClient._on_message`, after frame splitting: `dest` is the
parsed destination header, `body` the JSON-decoded body (none when
`json.loads` failed or the frame had no blank line), `decode` the nested
`json.loads` applied to the `content` field, `strategySet` whether a
strategy is registered. Every raise inside the try block is caught, keeping
the mutations made so far and skipping the rest of the branch. -/
def on_message (decode : String → Option JValue) (strategySet : Bool)
    (dest : Option String) (body : Option JValue) (st : ClientState) :
    ClientState × HandlerActions :=
  match body with
  | none => (st, noActions)
  | some jb =>
    if dest = some "/topic/orderbook" then
      match jmem "content" jb with
      | none => (st, noActions)
      | some false => (st, noActions)
      | some true =>
        match jindex jb "content" with
        | none => (st, noActions)
        | some (.str cs) =>
          match decode cs with
          | none => (st, noActions)
          | some (.arr elems) =>
            let entries := elems.map jToUpdateEntry
            match FilteredOrderBook.update_volumes st.fob entries st.portfolio.orders with
            | (fob', none) => ({ st with fob := fob' }, ⟨true, strategySet, false, false⟩)
            | (fob', some _) => ({ st with fob := fob' }, ⟨true, false, false, false⟩)
          | some _ => (st, noActions)
        | some _ => (st, noActions)
    else if dest = some "/user/queue/private" then
      match (if truthy jb then
               match jmem "balance" jb with
               | none => none
               | some true => some true
               | some false => jmem "Orders" jb
             else jmem "Orders" jb) with
      | none => (st, noActions)
      | some false => (st, noActions)
      | some true =>
        match UserPortfolio.update_portfolio st.portfolio jb with
        | (p', false) => ({ st with portfolio := p' }, ⟨false, false, true, strategySet⟩)
        | (p', true) => ({ st with portfolio := p' }, ⟨false, false, true, false⟩)
    else (st, noActions)

/-- The subscribe-relevant state of a WebSocketClient: whether a
`_subscribed` event object exists and is set, and how many `_subscribe_ws`
background tasks have been created over the client's lifetime. -/
structure WSClient where
  subscribedEvent : Option Bool
  tasksStarted : Nat
deriving DecidableEq

/-- `WebSocketClient.subscribe()`, statement by statement, evaluated to the
point where the final wait completes: the initial `if self._subscribed:
await self._subscribed.wait()` changes no state; then a fresh unset Event
replaces `_subscribed` unconditionally; then `asyncio.create_task
(self._subscribe_ws())` starts one more background handshake/read task;
the final wait returns once that new task's handshake sets the event. -/
def subscribe (c : WSClient) : WSClient :=
  let c1 : WSClient := { c with subscribedEvent := some false }
  let c2 : WSClient := { c1 with tasksStarted := c1.tasksStarted + 1 }
  { c2 with subscribedEvent := some true }

end WebSocketClient

/-! ### Derived notions used to state the claims -/

/-- Which query side a wire side string addresses after `.upper()`. -/
def sideOfNorm (sd : String) : Option OrderSide :=
  if normSide sd = "BID" then some .BID
  else if normSide sd = "ASK" then some .ASK
  else none

/-- Whether an update entry names the exact (ticker, side, price) key. -/
def entryMatchesKey (t : String) (sd : OrderSide) (p : Rat) (u : UpdateEntry) : Bool :=
  decide (u.ticker = some t) && decide (u.price = some p) &&
    decide (u.side.bind sideOfNorm = some sd)

/-- Sequential application of several update batches, keeping the state of
each `update_volumes` call. -/
def applyBatches (s : OBState) (orders : List (String × List Order))
    (batches : List (List UpdateEntry)) : OBState :=
  batches.foldl (fun st b => (OrderBook.update_volumes st b orders).1) s

/-- Whether an open order rests on the side a query addresses: the source
compares `order.side == OrderSide.BID` and treats every other value as an
ask. -/
def sideMatches (sd : OrderSide) (o : Order) : Bool :=
  match sd with
  | .BID => decide (o.side = "BID")
  | .ASK => !decide (o.side = "BID")

/-- The per-level effect of one open-order subtraction in the filtered
snapshot: nothing once the level is gone; otherwise subtract, removing the
level exactly when the result is 0. -/
def subtractStep (v : Option Rat) (o : Order) : Option Rat :=
  match v with
  | none => none
  | some x => if x - o.volume = 0 then none else some (x - o.volume)

/-- The open orders resting at the exact key a query addresses, in
iteration order. -/
def ordersAtKey (t : String) (sd : OrderSide) (p : Rat) (os : List Order) : List Order :=
  os.filter (fun o => decide (o.ticker = t) && sideMatches sd o && decide (o.price = p))

/-- Key membership in a JSON object ("balance" in json_body for a dict). -/
def hasKey (k : String) (fs : List (String × JValue)) : Bool :=
  fs.any (fun e => decide (e.1 = k))

/-! ### Lemmas about the association-list primitives -/

theorem lookupSide_insertDesc (p q v : Rat) (l : Side) :
    lookupSide p (insertDesc q v l) = if q = p then some v else lookupSide p l := by
  induction l with
  | nil => simp [insertDesc, lookupSide]
  | cons e rest ih =>
    obtain ⟨a, b⟩ := e
    simp only [insertDesc]
    by_cases h1 : a < q
    · rw [if_pos h1]
      simp only [lookupSide]
    · rw [if_neg h1]
      by_cases h2 : a = q
      · rw [if_pos h2]
        simp only [lookupSide]
        by_cases hqp : q = p
        · rw [if_pos hqp, if_pos hqp]
        · have hap : ¬a = p := by rw [h2]; exact hqp
          rw [if_neg hqp, if_neg hqp, if_neg hap]
      · rw [if_neg h2]
        simp only [lookupSide]
        rw [ih]
        by_cases hap : a = p
        · have hqp : ¬q = p := fun h => h2 (hap.trans h.symm)
          rw [if_pos hap, if_neg hqp, if_pos hap]
        · rw [if_neg hap, if_neg hap]

theorem lookupSide_insertAsc (p q v : Rat) (l : Side) :
    lookupSide p (insertAsc q v l) = if q = p then some v else lookupSide p l := by
  induction l with
  | nil => simp [insertAsc, lookupSide]
  | cons e rest ih =>
    obtain ⟨a, b⟩ := e
    simp only [insertAsc]
    by_cases h1 : q < a
    · rw [if_pos h1]
      simp only [lookupSide]
    · rw [if_neg h1]
      by_cases h2 : a = q
      · rw [if_pos h2]
        simp only [lookupSide]
        by_cases hqp : q = p
        · rw [if_pos hqp, if_pos hqp]
        · have hap : ¬a = p := by rw [h2]; exact hqp
          rw [if_neg hqp, if_neg hqp, if_neg hap]
      · rw [if_neg h2]
        simp only [lookupSide]
        rw [ih]
        by_cases hap : a = p
        · have hqp : ¬q = p := fun h => h2 (hap.trans h.symm)
          rw [if_pos hap, if_neg hqp, if_pos hap]
        · rw [if_neg hap, if_neg hap]

theorem lookupSide_eraseSide (p q : Rat) (l : Side) :
    lookupSide p (eraseSide q l) = if q = p then none else lookupSide p l := by
  induction l with
  | nil => simp [eraseSide, lookupSide]
  | cons e rest ih =>
    obtain ⟨a, b⟩ := e
    simp only [eraseSide]
    by_cases h2 : a = q
    · rw [if_pos h2, ih]
      by_cases hqp : q = p
      · rw [if_pos hqp, if_pos hqp]
      · have hap : ¬a = p := by rw [h2]; exact hqp
        simp only [lookupSide]
        rw [if_neg hqp, if_neg hqp, if_neg hap]
    · rw [if_neg h2]
      simp only [lookupSide]
      rw [ih]
      by_cases hap : a = p
      · have hqp : ¬q = p := fun h => h2 (hap.trans h.symm)
        rw [if_pos hap, if_neg hqp, if_pos hap]
      · rw [if_neg hap, if_neg hap]

theorem lookupTicker_modifyTicker (t t' : String) (f : TickerBook → TickerBook)
    (s : OBState) :
    lookupTicker t' (modifyTicker t f s) =
      if t = t' then (lookupTicker t s).map f else lookupTicker t' s := by
  induction s with
  | nil => simp [modifyTicker, lookupTicker]
  | cons e rest ih =>
    obtain ⟨a, b⟩ := e
    by_cases h1 : a = t
    · subst h1
      by_cases h2 : a = t'
      · subst h2
        simp [modifyTicker, lookupTicker]
      · have : t' ≠ a := fun h => h2 h.symm
        simp [modifyTicker, lookupTicker, h2, this]
    · by_cases h2 : a = t'
      · subst h2
        have : t ≠ a := fun h => h1 h.symm
        simp [modifyTicker, lookupTicker, h1, this]
      · simp [modifyTicker, lookupTicker, h1, h2, ih]

theorem lookupTicker_append (t : String) (s1 s2 : OBState) :
    lookupTicker t (s1 ++ s2) =
      match lookupTicker t s1 with
      | some b => some b
      | none => lookupTicker t s2 := by
  induction s1 with
  | nil => simp [lookupTicker]
  | cons e rest ih =>
    obtain ⟨a, b⟩ := e
    by_cases h : a = t
    · simp [lookupTicker, h]
    · simp [lookupTicker, h, ih]

theorem lookupTicker_ensureTicker (t t' : String) (s : OBState) :
    lookupTicker t' (ensureTicker t s) =
      if t = t' then some ((lookupTicker t s).getD emptyBook)
      else lookupTicker t' s := by
  unfold ensureTicker
  cases hl : lookupTicker t s with
  | some b =>
    by_cases h : t = t'
    · subst h; simp [hl]
    · simp [h]
  | none =>
    rw [lookupTicker_append]
    by_cases h : t = t'
    · subst h; simp [hl, lookupTicker]
    · cases hl' : lookupTicker t' s with
      | some b => simp [h, hl']
      | none =>
        have : t ≠ t' := h
        simp [h, hl', lookupTicker, this]

/-! ### Per-entry behaviour of the raw update loop -/

theorem lookupSide_getD_bids (s : OBState) (t : String) (p : Rat) :
    lookupSide p ((lookupTicker t s).getD emptyBook).bids = lookupVolume s t .BID p := by
  cases h : lookupTicker t s with
  | none => simp [lookupVolume, h, emptyBook, lookupSide]
  | some b => simp [lookupVolume, h]

theorem lookupSide_getD_asks (s : OBState) (t : String) (p : Rat) :
    lookupSide p ((lookupTicker t s).getD emptyBook).asks = lookupVolume s t .ASK p := by
  cases h : lookupTicker t s with
  | none => simp [lookupVolume, h, emptyBook, lookupSide]
  | some b => simp [lookupVolume, h]

theorem applyValidEntry_snd (s : OBState) (t : String) (p : Rat) (sd : String)
    (v : Rat) (osd : OrderSide) (hsd : sideOfNorm sd = some osd) :
    (OrderBook.applyValidEntry s t p sd v).2 = none := by
  unfold OrderBook.applyValidEntry
  unfold sideOfNorm at hsd
  by_cases hb : normSide sd = "BID"
  · rw [if_pos hb]
    by_cases hv : v = 0 <;> simp [hv]
  · rw [if_neg hb]
    rw [if_neg hb] at hsd
    by_cases ha : normSide sd = "ASK"
    · rw [if_pos ha]
      by_cases hv : v = 0 <;> simp [hv]
    · rw [if_neg ha] at hsd
      exact absurd hsd (by simp)

theorem lookupVolume_applyValidEntry (s : OBState) (t : String) (p : Rat)
    (sd : String) (v : Rat) (osd : OrderSide) (hsd : sideOfNorm sd = some osd)
    (t' : String) (sd' : OrderSide) (p' : Rat) :
    lookupVolume (OrderBook.applyValidEntry s t p sd v).1 t' sd' p' =
      if t = t' ∧ osd = sd' ∧ p = p' then (if v = 0 then none else some v)
      else lookupVolume s t' sd' p' := by
  unfold sideOfNorm at hsd
  unfold OrderBook.applyValidEntry
  by_cases hb : normSide sd = "BID"
  · rw [if_pos hb] at hsd ⊢
    have hosd : osd = OrderSide.BID := by
      cases hsd; rfl
    subst hosd
    by_cases hv : v = 0 <;>
    · simp only [hv, if_true, if_false, reduceIte]
      unfold lookupVolume
      rw [lookupTicker_modifyTicker]
      by_cases ht : t = t'
      · rw [if_pos ht, lookupTicker_ensureTicker, if_pos rfl]
        subst ht
        cases sd' with
        | BID =>
          simp only [Option.map_some']
          first
          | (rw [show (lookupSide p' (eraseSide p ((lookupTicker t s).getD emptyBook).bids)) =
                _ from lookupSide_eraseSide p' p _]
             rw [lookupSide_getD_bids]
             by_cases hp : p = p'
             · simp [hp]
             · simp [hp, lookupVolume])
          | (rw [show (lookupSide p' (insertDesc p v ((lookupTicker t s).getD emptyBook).bids)) =
                _ from lookupSide_insertDesc p' p v _]
             rw [lookupSide_getD_bids]
             by_cases hp : p = p'
             · simp [hp, hv]
             · simp [hp, lookupVolume])
        | ASK =>
          simp only [Option.map_some']
          rw [lookupSide_getD_asks]
          simp [lookupVolume]
      · rw [if_neg ht, lookupTicker_ensureTicker, if_neg ht]
        have : ¬(t = t' ∧ OrderSide.BID = sd' ∧ p = p') := fun h => ht h.1
        rw [if_neg this]
  · rw [if_neg hb] at hsd ⊢
    by_cases ha : normSide sd = "ASK"
    · rw [if_pos ha] at hsd ⊢
      have hosd : osd = OrderSide.ASK := by
        cases hsd; rfl
      subst hosd
      by_cases hv : v = 0 <;>
      · simp only [hv, if_true, if_false, reduceIte]
        unfold lookupVolume
        rw [lookupTicker_modifyTicker]
        by_cases ht : t = t'
        · rw [if_pos ht, lookupTicker_ensureTicker, if_pos rfl]
          subst ht
          cases sd' with
          | ASK =>
            simp only [Option.map_some']
            first
            | (rw [show (lookupSide p' (eraseSide p ((lookupTicker t s).getD emptyBook).asks)) =
                  _ from lookupSide_eraseSide p' p _]
               rw [lookupSide_getD_asks]
               by_cases hp : p = p'
               · simp [hp]
               · simp [hp, lookupVolume])
            | (rw [show (lookupSide p' (insertAsc p v ((lookupTicker t s).getD emptyBook).asks)) =
                  _ from lookupSide_insertAsc p' p v _]
               rw [lookupSide_getD_asks]
               by_cases hp : p = p'
               · simp [hp, hv]
               · simp [hp, lookupVolume])
          | BID =>
            simp only [Option.map_some']
            rw [lookupSide_getD_bids]
            simp [lookupVolume]
        · rw [if_neg ht, lookupTicker_ensureTicker, if_neg ht]
          have : ¬(t = t' ∧ OrderSide.ASK = sd' ∧ p = p') := fun h => ht h.1
          rw [if_neg this]
    · rw [if_neg ha] at hsd
      exact absurd hsd (by simp)

theorem wellFormed_shape (u : UpdateEntry) (h : wellFormedEntry u = true) :
    ∃ t p sd v osd, u = ⟨some t, some p, some sd, some v⟩ ∧ sideOfNorm sd = some osd := by
  obtain ⟨tk, pr, sd, vol⟩ := u
  cases tk with
  | none => simp [wellFormedEntry, allFieldsPresent] at h
  | some t =>
    cases pr with
    | none => simp [wellFormedEntry, allFieldsPresent] at h
    | some p =>
      cases sd with
      | none => simp [wellFormedEntry, allFieldsPresent] at h
      | some sdv =>
        cases vol with
        | none => simp [wellFormedEntry, allFieldsPresent] at h
        | some v =>
          simp only [wellFormedEntry, allFieldsPresent, Option.isSome_some,
            Bool.and_self, Bool.true_and, Option.getD_some, Bool.and_eq_true,
            Bool.or_eq_true, decide_eq_true_eq] at h
          rcases h with h | h
          · exact ⟨t, p, sdv, v, .BID, rfl, by simp [sideOfNorm, h]⟩
          · by_cases hb : normSide sdv = "BID"
            · exact ⟨t, p, sdv, v, .BID, rfl, by simp [sideOfNorm, hb]⟩
            · exact ⟨t, p, sdv, v, .ASK, rfl, by simp [sideOfNorm, hb, h]⟩

theorem update_volumes_cons_valid (s : OBState) (t : String) (p : Rat) (sd : String)
    (v : Rat) (osd : OrderSide) (hsd : sideOfNorm sd = some osd)
    (rest : List UpdateEntry) (orders : List (String × List Order)) :
    OrderBook.update_volumes s (⟨some t, some p, some sd, some v⟩ :: rest) orders =
      OrderBook.update_volumes (OrderBook.applyValidEntry s t p sd v).1 rest orders := by
  have h2 := applyValidEntry_snd s t p sd v osd hsd
  simp only [OrderBook.update_volumes]
  cases happ : OrderBook.applyValidEntry s t p sd v with
  | mk s1 e =>
    rw [happ] at h2
    simp at h2
    subst h2
    rfl

theorem update_volumes_wf_snd (us : List UpdateEntry) : ∀ (s : OBState) orders,
    (∀ u ∈ us, wellFormedEntry u = true) →
    (OrderBook.update_volumes s us orders).2 = none := by
  induction us with
  | nil => intro s orders _; rfl
  | cons u rest ih =>
    intro s orders h
    obtain ⟨t, p, sd, v, osd, rfl, hsd⟩ := wellFormed_shape u (h u (by simp))
    rw [update_volumes_cons_valid s t p sd v osd hsd]
    exact ih _ orders (fun u hu => h u (by simp [hu]))

theorem find?_concat_singleton {α : Type} (l : List α) (f : α → Bool) (a : α) :
    (l ++ [a]).find? f =
      match l.find? f with
      | some x => some x
      | none => if f a then some a else none := by
  induction l with
  | nil =>
    simp only [List.nil_append]
    by_cases hf : f a
    · simp [List.find?, hf]
    · simp [List.find?, hf]
  | cons x xs ih =>
    by_cases hf : f x
    · simp [List.find?_cons_of_pos _ hf, hf]
    · simp only [List.cons_append, List.find?_cons_of_neg _ hf, ih]

theorem update_volumes_lww (us : List UpdateEntry) : ∀ (s : OBState) orders,
    (∀ u ∈ us, wellFormedEntry u = true) → ∀ (t : String) (sd : OrderSide) (p : Rat),
    lookupVolume (OrderBook.update_volumes s us orders).1 t sd p =
      match us.reverse.find? (entryMatchesKey t sd p) with
      | some u => if u.volume = some 0 then none else u.volume
      | none => lookupVolume s t sd p := by
  induction us with
  | nil => intro s orders _ t sd p; rfl
  | cons u rest ih =>
    intro s orders h t sd p
    obtain ⟨t0, p0, sd0, v0, osd0, rfl, hsd⟩ := wellFormed_shape u (h u (by simp))
    rw [update_volumes_cons_valid s t0 p0 sd0 v0 osd0 hsd]
    rw [ih _ orders (fun u hu => h u (by simp [hu])) t sd p]
    rw [List.reverse_cons, find?_concat_singleton]
    cases hfind : rest.reverse.find? (entryMatchesKey t sd p) with
    | some u' => rfl
    | none =>
      simp only
      by_cases hm : entryMatchesKey t sd p ⟨some t0, some p0, some sd0, some v0⟩ = true
      · have hkey : t0 = t ∧ p0 = p ∧ osd0 = sd := by
          unfold entryMatchesKey at hm
          simp only [Bool.and_eq_true, decide_eq_true_eq, Option.some_inj,
            Option.some_bind] at hm
          rw [hsd] at hm
          exact ⟨hm.1.1, hm.1.2, by injection hm.2⟩
        rw [lookupVolume_applyValidEntry s t0 p0 sd0 v0 osd0 hsd t sd p,
          if_pos ⟨hkey.1, hkey.2.2, hkey.2.1⟩, if_pos hm]
        by_cases hv : v0 = 0
        · simp [hv]
        · simp [hv]
      · have hnkey : ¬(t0 = t ∧ osd0 = sd ∧ p0 = p) := by
          intro hk
          apply hm
          unfold entryMatchesKey
          simp only [Bool.and_eq_true, decide_eq_true_eq, Option.some_inj,
            Option.some_bind]
          rw [hsd]
          exact ⟨⟨hk.1, hk.2.2⟩, by rw [hk.2.1]⟩
        rw [lookupVolume_applyValidEntry s t0 p0 sd0 v0 osd0 hsd t sd p,
          if_neg hnkey, if_neg hm]

theorem update_volumes_append (l1 : List UpdateEntry) : ∀ (s : OBState) l2 orders,
    (∀ u ∈ l1, wellFormedEntry u = true) →
    OrderBook.update_volumes s (l1 ++ l2) orders =
      OrderBook.update_volumes (OrderBook.update_volumes s l1 orders).1 l2 orders := by
  induction l1 with
  | nil => intro s l2 orders _; rfl
  | cons u rest ih =>
    intro s l2 orders h
    obtain ⟨t, p, sd, v, osd, rfl, hsd⟩ := wellFormed_shape u (h u (by simp))
    rw [List.cons_append, update_volumes_cons_valid s t p sd v osd hsd,
      update_volumes_cons_valid s t p sd v osd hsd]
    exact ih _ l2 orders (fun u hu => h u (by simp [hu]))

theorem applyBatches_eq_flatten (batches : List (List UpdateEntry)) :
    ∀ (s : OBState) orders, (∀ b ∈ batches, ∀ u ∈ b, wellFormedEntry u = true) →
    applyBatches s orders batches = (OrderBook.update_volumes s batches.flatten orders).1 := by
  induction batches with
  | nil => intro s orders _; rfl
  | cons b bs ih =>
    intro s orders h
    have hb : ∀ u ∈ b, wellFormedEntry u = true := h b (by simp)
    show applyBatches (OrderBook.update_volumes s b orders).1 orders bs = _
    rw [ih _ orders (fun b' hb' => h b' (by simp [hb'])), List.flatten_cons,
      update_volumes_append b s (bs.flatten) orders hb]

theorem lookupTicker_applyValidEntry_isSome (s : OBState) (t : String) (p : Rat)
    (sd : String) (v : Rat) (t' : String) :
    (lookupTicker t' (OrderBook.applyValidEntry s t p sd v).1).isSome =
      (decide (t = t') || (lookupTicker t' s).isSome) := by
  have hmod : ∀ f : TickerBook → TickerBook,
      (lookupTicker t' (modifyTicker t f (ensureTicker t s))).isSome =
        (decide (t = t') || (lookupTicker t' s).isSome) := by
    intro f
    rw [lookupTicker_modifyTicker]
    by_cases ht : t = t'
    · rw [if_pos ht, lookupTicker_ensureTicker, if_pos rfl]
      simp [ht]
    · rw [if_neg ht, lookupTicker_ensureTicker, if_neg ht]
      simp [ht]
  have hens : (lookupTicker t' (ensureTicker t s)).isSome =
      (decide (t = t') || (lookupTicker t' s).isSome) := by
    rw [lookupTicker_ensureTicker]
    by_cases ht : t = t'
    · rw [if_pos ht]; simp [ht]
    · rw [if_neg ht]; simp [ht]
  unfold OrderBook.applyValidEntry
  by_cases hb : normSide sd = "BID"
  · rw [if_pos hb]
    by_cases hv : v = 0
    · rw [if_pos hv]; exact hmod _
    · rw [if_neg hv]; exact hmod _
  · rw [if_neg hb]
    by_cases ha : normSide sd = "ASK"
    · rw [if_pos ha]
      by_cases hv : v = 0
      · rw [if_pos hv]; exact hmod _
      · rw [if_neg hv]; exact hmod _
    · rw [if_neg ha]
      exact hens

theorem update_volumes_preserves_ticker (us : List UpdateEntry) :
    ∀ (s : OBState) orders (t : String), (∀ u ∈ us, wellFormedEntry u = true) →
    (lookupTicker t s).isSome = true →
    (lookupTicker t (OrderBook.update_volumes s us orders).1).isSome = true := by
  induction us with
  | nil => intro s orders t _ hp; exact hp
  | cons u rest ih =>
    intro s orders t h hp
    obtain ⟨t0, p0, sd0, v0, osd0, rfl, hsd⟩ := wellFormed_shape u (h u (by simp))
    rw [update_volumes_cons_valid s t0 p0 sd0 v0 osd0 hsd]
    apply ih _ orders t (fun u hu => h u (by simp [hu]))
    rw [lookupTicker_applyValidEntry_isSome, hp]
    simp

theorem update_volumes_ticker_present (us : List UpdateEntry) :
    ∀ (s : OBState) orders (t : String), (∀ u ∈ us, wellFormedEntry u = true) →
    (∃ u ∈ us, u.ticker = some t) →
    (lookupTicker t (OrderBook.update_volumes s us orders).1).isSome = true := by
  induction us with
  | nil => intro s orders t _ hex; exact absurd hex (by simp)
  | cons u rest ih =>
    intro s orders t h hex
    obtain ⟨t0, p0, sd0, v0, osd0, rfl, hsd⟩ := wellFormed_shape u (h u (by simp))
    rw [update_volumes_cons_valid s t0 p0 sd0 v0 osd0 hsd]
    obtain ⟨u', hu', htk⟩ := hex
    rcases List.mem_cons.mp hu' with hfirst | hrest
    · subst hfirst
      have ht0 : t0 = t := by injection htk
      apply update_volumes_preserves_ticker rest _ orders t
        (fun u hu => h u (by simp [hu]))
      rw [lookupTicker_applyValidEntry_isSome]
      simp [ht0]
    · exact ih _ orders t (fun u hu => h u (by simp [hu])) ⟨u', hrest, htk⟩

/-! ### Claim theorems -/

/-- C4: for every sequence of well-formed update batches, the stored volume
at any (ticker, side, price) afterwards equals the volume of the last update
in the sequence naming that exact key (absolute replacement, not a delta),
or the level is absent if that last volume was 0; a key named by no update
keeps its prior value (so a volume-0 update for an absent level is a no-op),
and every ticker named by any update is present afterwards (auto-created as
an empty two-sided book if unknown). -/
theorem orderbook_last_writer_wins (s : OBState) (orders : List (String × List Order))
    (batches : List (List UpdateEntry))
    (h : ∀ b ∈ batches, ∀ u ∈ b, wellFormedEntry u = true) :
    (∀ (t : String) (sd : OrderSide) (p : Rat),
       lookupVolume (applyBatches s orders batches) t sd p =
         match batches.flatten.reverse.find? (entryMatchesKey t sd p) with
         | some u => if u.volume = some 0 then none else u.volume
         | none => lookupVolume s t sd p) ∧
    (∀ t : String, (∃ u ∈ batches.flatten, u.ticker = some t) →
       (lookupTicker t (applyBatches s orders batches)).isSome = true) := by
  have hflat : ∀ u ∈ batches.flatten, wellFormedEntry u = true := by
    intro u hu
    rw [List.mem_flatten] at hu
    obtain ⟨b, hb, hub⟩ := hu
    exact h b hb u hub
  rw [applyBatches_eq_flatten batches s orders h]
  exact ⟨fun t sd p => update_volumes_lww batches.flatten s orders hflat t sd p,
    fun t hex => update_volumes_ticker_present batches.flatten s orders t hflat hex⟩

/-- Witness for C4 at a concrete input: two batches, where price level
(A, BID, 10) is written twice (5 then 7, with differently-cased side
strings) and (B, ASK, 3) is written once with volume 0 while absent. -/
theorem orderbook_last_writer_wins_witness :
    lookupVolume (applyBatches [] []
      [[⟨some "A", some 10, some "bid", some 5⟩, ⟨some "A", some 10, some "Bid", some 7⟩],
       [⟨some "B", some 3, some "ASK", some 0⟩]]) "A" .BID 10 = some 7 ∧
    lookupVolume (applyBatches [] []
      [[⟨some "A", some 10, some "bid", some 5⟩, ⟨some "A", some 10, some "Bid", some 7⟩],
       [⟨some "B", some 3, some "ASK", some 0⟩]]) "B" .ASK 3 = none ∧
    (lookupTicker "B" (applyBatches [] []
      [[⟨some "A", some 10, some "bid", some 5⟩, ⟨some "A", some 10, some "Bid", some 7⟩],
       [⟨some "B", some 3, some "ASK", some 0⟩]])).isSome = true := by
  have h := orderbook_last_writer_wins [] []
    [[⟨some "A", some 10, some "bid", some 5⟩, ⟨some "A", some 10, some "Bid", some 7⟩],
     [⟨some "B", some 3, some "ASK", some 0⟩]] (by decide)
  exact ⟨(h.1 "A" .BID 10).trans (by decide),
    (h.1 "B" .ASK 3).trans (by decide),
    h.2 "B" (by decide)⟩

/-- C1 counterexample: the claim says a batch with a malformed entry leaves
the book exactly as before the call; here the well-formed first entry of the
batch is applied before the malformed second entry raises, so the state
changed even though the call failed with the validation error. -/
theorem malformed_batch_partial_application_counterexample :
    (OrderBook.update_volumes []
      [⟨some "A", some 1, some "BID", some 2⟩, ⟨some "A", some 1, some "BID", none⟩] []).2 =
      some .malformedEntry ∧
    lookupVolume (OrderBook.update_volumes []
      [⟨some "A", some 1, some "BID", some 2⟩, ⟨some "A", some 1, some "BID", none⟩] []).1
      "A" .BID 1 = some 2 ∧
    (OrderBook.update_volumes []
      [⟨some "A", some 1, some "BID", some 2⟩, ⟨some "A", some 1, some "BID", none⟩] []).1 ≠
      ([] : OBState) := by
  refine ⟨rfl, rfl, ?_⟩
  decide

/-- C1 (amended): a batch containing an entry without all four fields fails
with the validation error raised at the first such entry; the well-formed
entries preceding it ARE applied (partial application up to, but excluding,
the first malformed entry), and nothing at or after it is applied. -/
theorem malformed_batch_stops_at_first_malformed (s : OBState)
    (orders : List (String × List Order)) (pre : List UpdateEntry)
    (u : UpdateEntry) (post : List UpdateEntry)
    (hpre : ∀ v ∈ pre, wellFormedEntry v = true)
    (hu : allFieldsPresent u = false) :
    OrderBook.update_volumes s (pre ++ u :: post) orders =
      ((OrderBook.update_volumes s pre orders).1, some .malformedEntry) := by
  induction pre generalizing s with
  | nil =>
    simp only [List.nil_append]
    obtain ⟨tk, pr, sd, vol⟩ := u
    cases tk <;> cases pr <;> cases sd <;> cases vol <;>
      first
      | rfl
      | simp [allFieldsPresent] at hu
  | cons v rest ih =>
    obtain ⟨t, p, sdv, vv, osd, rfl, hsd⟩ := wellFormed_shape v (hpre v (by simp))
    rw [List.cons_append, update_volumes_cons_valid s t p sdv vv osd hsd,
      update_volumes_cons_valid s t p sdv vv osd hsd]
    exact ih _ (fun w hw => hpre w (by simp [hw]))

/-- Witness for C1 (amended) at a concrete input: a well-formed entry
followed by an entry missing its price. -/
theorem malformed_batch_stops_at_first_malformed_witness :
    OrderBook.update_volumes []
      ([⟨some "B", some 2, some "ASK", some 3⟩] ++
        ⟨some "B", none, some "ASK", some 1⟩ :: []) [] =
      ((OrderBook.update_volumes [] [⟨some "B", some 2, some "ASK", some 3⟩] []).1,
        some .malformedEntry) :=
  malformed_batch_stops_at_first_malformed [] [] [⟨some "B", some 2, some "ASK", some 3⟩]
    ⟨some "B", none, some "ASK", some 1⟩ [] (by decide) (by decide)

theorem lookupVolume_subtractOrder (s : OBState) (o : Order) (t : String)
    (sd : OrderSide) (p : Rat) :
    lookupVolume (FilteredOrderBook.subtractOrder s o) t sd p =
      if o.ticker = t ∧ sideMatches sd o = true ∧ o.price = p then
        subtractStep (lookupVolume s t sd p) o
      else lookupVolume s t sd p := by
  unfold FilteredOrderBook.subtractOrder
  cases hlt : lookupTicker o.ticker s with
  | none =>
    by_cases hc : o.ticker = t ∧ sideMatches sd o = true ∧ o.price = p
    · rw [if_pos hc]
      have hnone : lookupVolume s t sd p = none := by
        unfold lookupVolume
        rw [← hc.1, hlt]
      rw [hnone]
      rfl
    · rw [if_neg hc]
  | some b =>
    dsimp only
    by_cases hside : o.side = "BID"
    · rw [if_pos hside]
      cases hls : lookupSide o.price b.bids with
      | none =>
        by_cases hc : o.ticker = t ∧ sideMatches sd o = true ∧ o.price = p
        · rw [if_pos hc]
          have hsd : sd = OrderSide.BID := by
            cases sd
            · rfl
            · exfalso
              have := hc.2.1
              simp [sideMatches, hside] at this
          subst hsd
          have hnone : lookupVolume s t .BID p = none := by
            rw [← hc.1, ← hc.2.2]
            unfold lookupVolume
            rw [hlt]
            exact hls
          rw [hnone]
          rfl
        · rw [if_neg hc]
      | some v =>
        by_cases ht : o.ticker = t
        · subst ht
          unfold lookupVolume
          rw [lookupTicker_modifyTicker, if_pos rfl, hlt, Option.map_some']
          dsimp only
          cases sd with
          | ASK =>
            have hcond : ¬(o.ticker = o.ticker ∧
                sideMatches OrderSide.ASK o = true ∧ o.price = p) := by
              intro hc
              have := hc.2.1
              simp [sideMatches, hside] at this
            rw [if_neg hcond]
          | BID =>
            by_cases hp : o.price = p
            · subst hp
              have hcondp : o.ticker = o.ticker ∧
                  sideMatches OrderSide.BID o = true ∧ o.price = o.price :=
                ⟨rfl, by simp [sideMatches, hside], rfl⟩
              rw [if_pos hcondp]
              by_cases hv : v - o.volume = 0
              · rw [if_pos hv]
                rw [show lookupSide o.price
                    (eraseSide o.price (insertDesc o.price (v - o.volume) b.bids)) =
                    _ from lookupSide_eraseSide o.price o.price _, if_pos rfl]
                simp [subtractStep, hls, hv]
              · rw [if_neg hv]
                rw [show lookupSide o.price (insertDesc o.price (v - o.volume) b.bids) =
                    _ from lookupSide_insertDesc o.price o.price (v - o.volume) _,
                    if_pos rfl]
                simp [subtractStep, hls, hv]
            · have hcond : ¬(o.ticker = o.ticker ∧
                  sideMatches OrderSide.BID o = true ∧ o.price = p) := fun hc => hp hc.2.2
              rw [if_neg hcond]
              by_cases hv : v - o.volume = 0
              · rw [if_pos hv]
                rw [show lookupSide p
                    (eraseSide o.price (insertDesc o.price (v - o.volume) b.bids)) =
                    _ from lookupSide_eraseSide p o.price _, if_neg hp,
                    show lookupSide p (insertDesc o.price (v - o.volume) b.bids) =
                    _ from lookupSide_insertDesc p o.price (v - o.volume) _, if_neg hp]
              · rw [if_neg hv]
                rw [show lookupSide p (insertDesc o.price (v - o.volume) b.bids) =
                    _ from lookupSide_insertDesc p o.price (v - o.volume) _, if_neg hp]
        · have hcond : ¬(o.ticker = t ∧ sideMatches sd o = true ∧ o.price = p) :=
            fun hc => ht hc.1
          rw [if_neg hcond]
          unfold lookupVolume
          rw [lookupTicker_modifyTicker, if_neg ht]
    · rw [if_neg hside]
      cases hls : lookupSide o.price b.asks with
      | none =>
        by_cases hc : o.ticker = t ∧ sideMatches sd o = true ∧ o.price = p
        · rw [if_pos hc]
          have hsd : sd = OrderSide.ASK := by
            cases sd
            · exfalso
              have := hc.2.1
              simp [sideMatches, hside] at this
            · rfl
          subst hsd
          have hnone : lookupVolume s t .ASK p = none := by
            rw [← hc.1, ← hc.2.2]
            unfold lookupVolume
            rw [hlt]
            exact hls
          rw [hnone]
          rfl
        · rw [if_neg hc]
      | some v =>
        by_cases ht : o.ticker = t
        · subst ht
          unfold lookupVolume
          rw [lookupTicker_modifyTicker, if_pos rfl, hlt, Option.map_some']
          dsimp only
          cases sd with
          | BID =>
            have hcond : ¬(o.ticker = o.ticker ∧
                sideMatches OrderSide.BID o = true ∧ o.price = p) := by
              intro hc
              have := hc.2.1
              simp [sideMatches, hside] at this
            rw [if_neg hcond]
          | ASK =>
            by_cases hp : o.price = p
            · subst hp
              have hcondp : o.ticker = o.ticker ∧
                  sideMatches OrderSide.ASK o = true ∧ o.price = o.price :=
                ⟨rfl, by simp [sideMatches, hside], rfl⟩
              rw [if_pos hcondp]
              by_cases hv : v - o.volume = 0
              · rw [if_pos hv]
                rw [show lookupSide o.price
                    (eraseSide o.price (insertAsc o.price (v - o.volume) b.asks)) =
                    _ from lookupSide_eraseSide o.price o.price _, if_pos rfl]
                simp [subtractStep, hls, hv]
              · rw [if_neg hv]
                rw [show lookupSide o.price (insertAsc o.price (v - o.volume) b.asks) =
                    _ from lookupSide_insertAsc o.price o.price (v - o.volume) _,
                    if_pos rfl]
                simp [subtractStep, hls, hv]
            · have hcond : ¬(o.ticker = o.ticker ∧
                  sideMatches OrderSide.ASK o = true ∧ o.price = p) := fun hc => hp hc.2.2
              rw [if_neg hcond]
              by_cases hv : v - o.volume = 0
              · rw [if_pos hv]
                rw [show lookupSide p
                    (eraseSide o.price (insertAsc o.price (v - o.volume) b.asks)) =
                    _ from lookupSide_eraseSide p o.price _, if_neg hp,
                    show lookupSide p (insertAsc o.price (v - o.volume) b.asks) =
                    _ from lookupSide_insertAsc p o.price (v - o.volume) _, if_neg hp]
              · rw [if_neg hv]
                rw [show lookupSide p (insertAsc o.price (v - o.volume) b.asks) =
                    _ from lookupSide_insertAsc p o.price (v - o.volume) _, if_neg hp]
        · have hcond : ¬(o.ticker = t ∧ sideMatches sd o = true ∧ o.price = p) :=
            fun hc => ht hc.1
          rw [if_neg hcond]
          unfold lookupVolume
          rw [lookupTicker_modifyTicker, if_neg ht]

theorem lookupVolume_subtractOrders (os : List Order) : ∀ (s : OBState)
    (t : String) (sd : OrderSide) (p : Rat),
    lookupVolume (FilteredOrderBook.subtractOrders s os) t sd p =
      (ordersAtKey t sd p os).foldl subtractStep (lookupVolume s t sd p) := by
  induction os with
  | nil => intro s t sd p; rfl
  | cons o rest ih =>
    intro s t sd p
    show lookupVolume
      (FilteredOrderBook.subtractOrders (FilteredOrderBook.subtractOrder s o) rest) t sd p = _
    rw [ih, lookupVolume_subtractOrder]
    unfold ordersAtKey
    by_cases hc : o.ticker = t ∧ sideMatches sd o = true ∧ o.price = p
    · rw [if_pos hc]
      have hb : (decide (o.ticker = t) && sideMatches sd o && decide (o.price = p)) = true := by
        simp [hc.1, hc.2.1, hc.2.2]
      simp only [List.filter_cons, hb, if_true, List.foldl_cons]
    · rw [if_neg hc]
      have hb : (decide (o.ticker = t) && sideMatches sd o && decide (o.price = p)) = false := by
        rcases Decidable.not_and_iff_or_not.mp hc with h | hor
        · simp [h]
        · rcases Decidable.not_and_iff_or_not.mp hor with h | h
          · simp [h]
          · simp [h]
      simp only [List.filter_cons, hb, Bool.false_eq_true, if_false]

/-- C2 counterexample: the claim says a subtraction driving a level to a
volume less than or equal to 0 removes the level from the filtered snapshot
(never stored with zero or negative volume); here a raw ask level of volume
3 with one resting ask order of volume 5 at the same price leaves the level
stored with volume −2. -/
theorem filtered_negative_volume_counterexample :
    lookupVolume (FilteredOrderBook.update_volumes ⟨[], []⟩
        [⟨some "A", some 100, some "ASK", some 3⟩]
        [("A", [⟨"A", 100, 5, "ASK"⟩])]).1.filtered "A" .ASK 100 = some (-2) ∧
    ((-2 : Rat) ≤ 0) := by
  constructor
  · show lookupVolume (FilteredOrderBook.subtractOrders [("A", ⟨[], [(100, 3)]⟩)]
      (flattenOrders [("A", [⟨"A", 100, 5, "ASK"⟩])])) "A" .ASK 100 = some (-2)
    rw [lookupVolume_subtractOrders]
    norm_num [ordersAtKey, flattenOrders, lookupVolume, lookupTicker, lookupSide,
      sideMatches, subtractStep, List.filter_cons, List.filter_nil, List.foldl_cons,
      List.foldl_nil, if_neg (show ¬("ASK" = "BID") by decide)]
  · norm_num

/-- C2 (amended): after a successful FilteredOrderBook.update_volumes, the
filtered volume at every (ticker, side, price) is obtained from the raw
volume by subtracting the resting open orders at that exact key one at a
time, where a subtraction yielding exactly 0 removes the level (later
orders at the key are then skipped, as is any order whose level is absent),
and a subtraction yielding a negative value leaves the negative volume
stored. -/
theorem filtered_subtraction_characterization (fob : FOBState)
    (updates : List UpdateEntry) (ordersD : List (String × List Order))
    (h : (OrderBook.update_volumes fob.raw updates ordersD).2 = none) :
    (FilteredOrderBook.update_volumes fob updates ordersD).2 = none ∧
    ∀ (t : String) (sd : OrderSide) (p : Rat),
      lookupVolume (FilteredOrderBook.update_volumes fob updates ordersD).1.filtered t sd p =
        (ordersAtKey t sd p (flattenOrders ordersD)).foldl subtractStep
          (lookupVolume (FilteredOrderBook.update_volumes fob updates ordersD).1.raw t sd p) := by
  unfold FilteredOrderBook.update_volumes
  cases hu : OrderBook.update_volumes fob.raw updates ordersD with
  | mk raw' e =>
    rw [hu] at h
    cases e with
    | some e' => exact absurd h (by simp)
    | none =>
      exact ⟨rfl, fun t sd p => lookupVolume_subtractOrders (flattenOrders ordersD) raw' t sd p⟩

/-- Witness for C2 (amended) at the spec's worked example: raw ask volume 10
at price 100 with one resting ask order of volume 4 there; the filtered
volume is the fold of the subtraction (6). -/
theorem filtered_subtraction_characterization_witness :
    lookupVolume (FilteredOrderBook.update_volumes ⟨[], []⟩
        [⟨some "Q", some 100, some "ASK", some 10⟩]
        [("Q", [⟨"Q", 100, 4, "ASK"⟩])]).1.filtered "Q" .ASK 100 =
      (ordersAtKey "Q" .ASK 100 (flattenOrders [("Q", [⟨"Q", 100, 4, "ASK"⟩])])).foldl
        subtractStep
        (lookupVolume (FilteredOrderBook.update_volumes ⟨[], []⟩
          [⟨some "Q", some 100, some "ASK", some 10⟩]
          [("Q", [⟨"Q", 100, 4, "ASK"⟩])]).1.raw "Q" .ASK 100) :=
  (filtered_subtraction_characterization ⟨[], []⟩
    [⟨some "Q", some 100, some "ASK", some 10⟩]
    [("Q", [⟨"Q", 100, 4, "ASK"⟩])] (by decide)).2 "Q" .ASK 100

/-- C10: FilteredOrderBook.update_volumes never mutates the raw book beyond
the forwarded updates: its raw view equals the state a plain OrderBook
reaches from the same updates alone (and it raises exactly when the plain
OrderBook does); the open-order subtraction only ever touches the separately
materialized filtered snapshot. -/
theorem filtered_update_preserves_raw (fob : FOBState) (updates : List UpdateEntry)
    (ordersD : List (String × List Order)) :
    (FilteredOrderBook.update_volumes fob updates ordersD).1.raw =
      (OrderBook.update_volumes fob.raw updates ordersD).1 ∧
    (FilteredOrderBook.update_volumes fob updates ordersD).2 =
      (OrderBook.update_volumes fob.raw updates ordersD).2 := by
  unfold FilteredOrderBook.update_volumes
  cases hu : OrderBook.update_volumes fob.raw updates ordersD with
  | mk raw' e =>
    cases e with
    | none => exact ⟨rfl, rfl⟩
    | some e' => exact ⟨rfl, rfl⟩

/-- Helper: looking up a ticker right after a dict assignment yields the
assigned value. -/
theorem lookupPos_setPos (t : String) (pos : Position) (ps : Positions) :
    lookupPos t (setPos t pos ps) = some pos := by
  induction ps with
  | nil => simp [setPos, lookupPos]
  | cons e rest ih =>
    obtain ⟨t', p'⟩ := e
    by_cases h : t' = t
    · simp [setPos, lookupPos, h]
    · simp [setPos, lookupPos, h, ih]

/-- C8: after add_position(ticker, delta, price), the position's quantity is
previousQuantity + delta; its averagePrice is the volume-weighted running
average (previousAverage*previousQuantity + delta*price) / (previousQuantity
+ delta), except that it is reset to 0 when the new quantity is exactly 0;
a ticker with no prior position starts from quantity 0 and averagePrice 0. -/
theorem add_position_weighted_average (ps : Positions) (t : String) (delta price : Rat) :
    lookupPos t (UserPortfolio.add_position ps t delta price) =
      some (if ((lookupPos t ps).getD ⟨0, 0⟩).quantity + delta = 0 then
              ⟨((lookupPos t ps).getD ⟨0, 0⟩).quantity + delta, 0⟩
            else
              ⟨((lookupPos t ps).getD ⟨0, 0⟩).quantity + delta,
                (((lookupPos t ps).getD ⟨0, 0⟩).averagePrice *
                    ((lookupPos t ps).getD ⟨0, 0⟩).quantity + delta * price) /
                  (((lookupPos t ps).getD ⟨0, 0⟩).quantity + delta)⟩) := by
  unfold UserPortfolio.add_position
  by_cases hq : ((lookupPos t ps).getD ⟨0, 0⟩).quantity + delta = 0
  · rw [if_pos hq, if_pos hq, lookupPos_setPos]
  · rw [if_neg hq, if_neg hq, lookupPos_setPos]

/-- C9: for a ticker not present in the store, best_bid, best_ask, mid,
weighted mid and spread all raise KeyError rather than returning the absent
value; the absent (None) result arises exactly for a present ticker whose
relevant side(s) are empty. -/
theorem unknown_ticker_raises_keyerror (s : OBState) (t : String) :
    (lookupTicker t s = none →
      OrderBook.best_bid s t = .keyError ∧ OrderBook.best_ask s t = .keyError ∧
      OrderBook.mid s t = .keyError ∧ OrderBook.wmid s t = .keyError ∧
      OrderBook.spread s t = .keyError) ∧
    (∀ b : TickerBook, lookupTicker t s = some b →
      (OrderBook.best_bid s t = .found none ↔ b.bids = []) ∧
      (OrderBook.best_ask s t = .found none ↔ b.asks = []) ∧
      (OrderBook.mid s t = .found none ↔ b.bids = [] ∨ b.asks = []) ∧
      (OrderBook.wmid s t = .found none ↔ b.bids = [] ∨ b.asks = []) ∧
      (OrderBook.spread s t = .found none ↔ b.bids = [] ∨ b.asks = [])) := by
  constructor
  · intro h
    refine ⟨?_, ?_, ?_, ?_, ?_⟩ <;>
      simp [OrderBook.best_bid, OrderBook.best_ask, OrderBook.mid, OrderBook.wmid,
        OrderBook.spread, h]
  · intro b h
    have hbb : OrderBook.best_bid s t = .found b.bids.head? := by
      simp [OrderBook.best_bid, h]
    have hba : OrderBook.best_ask s t = .found b.asks.head? := by
      simp [OrderBook.best_ask, h]
    refine ⟨?_, ?_, ?_, ?_, ?_⟩
    · rw [hbb]
      cases hl : b.bids with
      | nil => simp
      | cons hd tl => simp
    · rw [hba]
      cases hl : b.asks with
      | nil => simp
      | cons hd tl => simp
    · unfold OrderBook.mid
      rw [hbb, hba]
      cases hl : b.bids with
      | nil => simp
      | cons hd tl =>
        obtain ⟨x, y⟩ := hd
        cases hl2 : b.asks with
        | nil => simp
        | cons hd2 tl2 =>
          obtain ⟨x2, y2⟩ := hd2
          simp
    · unfold OrderBook.wmid
      rw [hbb, hba]
      cases hl : b.bids with
      | nil => simp
      | cons hd tl =>
        obtain ⟨x, y⟩ := hd
        cases hl2 : b.asks with
        | nil => simp
        | cons hd2 tl2 =>
          obtain ⟨x2, y2⟩ := hd2
          simp
    · unfold OrderBook.spread
      rw [hbb, hba]
      cases hl : b.bids with
      | nil => simp
      | cons hd tl =>
        obtain ⟨x, y⟩ := hd
        cases hl2 : b.asks with
        | nil => simp
        | cons hd2 tl2 =>
          obtain ⟨x2, y2⟩ := hd2
          simp

/-- Witness for C9 at concrete inputs: the empty store raises KeyError for
mid; a present ticker with an empty ask side yields the absent value for
mid and best_ask but a found best bid. -/
theorem unknown_ticker_raises_keyerror_witness :
    OrderBook.mid ([] : OBState) "A" = .keyError ∧
    OrderBook.mid [("A", ⟨[(10, 5)], []⟩)] "A" = .found none ∧
    OrderBook.best_bid [("A", ⟨[(10, 5)], []⟩)] "A" ≠ .found none := by
  refine ⟨((unknown_ticker_raises_keyerror ([] : OBState) "A").1 rfl).2.2.1, ?_, ?_⟩
  · exact (((unknown_ticker_raises_keyerror [("A", ⟨[(10, 5)], []⟩)] "A").2
      ⟨[(10, 5)], []⟩ rfl).2.2.1).mpr (Or.inr rfl)
  · intro hcontra
    have := (((unknown_ticker_raises_keyerror [("A", ⟨[(10, 5)], []⟩)] "A").2
      ⟨[(10, 5)], []⟩ rfl).1).mp hcontra
    simp at this

/-- C7: for a ticker with both sides non-empty, with best bid (bp, bv) and
best ask (ap, av): mid = (bp+ap)/2, weighted mid = (bp*av+ap*bv)/(bv+av),
spread = ap − bp with no clamping at 0 (a crossed book yields a negative
spread); if either side is empty all three are absent. -/
theorem summary_stats_formulas (s : OBState) (t : String) :
    (∀ bp bv ap av : Rat, OrderBook.best_bid s t = .found (some (bp, bv)) →
       OrderBook.best_ask s t = .found (some (ap, av)) →
       OrderBook.mid s t = .found (some ((bp + ap) / 2)) ∧
       OrderBook.wmid s t = .found (some ((bp * av + ap * bv) / (bv + av))) ∧
       OrderBook.spread s t = .found (some (ap - bp))) ∧
    ((OrderBook.best_bid s t = .found none ∨ OrderBook.best_ask s t = .found none) →
       OrderBook.mid s t = .found none ∧ OrderBook.wmid s t = .found none ∧
       OrderBook.spread s t = .found none) := by
  constructor
  · intro bp bv ap av hb ha
    refine ⟨?_, ?_, ?_⟩
    · unfold OrderBook.mid
      rw [hb, ha]
    · unfold OrderBook.wmid
      rw [hb, ha]
    · unfold OrderBook.spread
      rw [hb, ha]
  · cases hl : lookupTicker t s with
    | none =>
      intro h
      rcases h with h | h <;>
        simp [OrderBook.best_bid, OrderBook.best_ask, hl] at h
    | some b =>
      intro h
      have hbb : OrderBook.best_bid s t = .found b.bids.head? := by
        simp [OrderBook.best_bid, hl]
      have hba : OrderBook.best_ask s t = .found b.asks.head? := by
        simp [OrderBook.best_ask, hl]
      have hcase : b.bids.head? = none ∨ b.asks.head? = none := by
        rcases h with h | h
        · rw [hbb] at h
          exact Or.inl (by simpa using h)
        · rw [hba] at h
          exact Or.inr (by simpa using h)
      refine ⟨?_, ?_, ?_⟩ <;>
      · first
        | unfold OrderBook.mid
        | unfold OrderBook.wmid
        | unfold OrderBook.spread
        rw [hbb, hba]
        rcases hcase with h1 | h1
        · rw [h1]
        · rw [h1]
          cases h2 : b.bids.head? with
          | none => rfl
          | some hd => obtain ⟨x, y⟩ := hd; rfl

/-- Witness for C7: the spec's worked example best_bid=(10,5),
best_ask=(12,3) gives mid 11, weighted mid 45/4 (= 11.25), spread 2; a
crossed book with best_bid=(12,1), best_ask=(10,1) gives spread −2. -/
theorem summary_stats_formulas_witness :
    OrderBook.mid [("A", ⟨[(10, 5)], [(12, 3)]⟩)] "A" = .found (some 11) ∧
    OrderBook.wmid [("A", ⟨[(10, 5)], [(12, 3)]⟩)] "A" = .found (some (45 / 4)) ∧
    OrderBook.spread [("A", ⟨[(10, 5)], [(12, 3)]⟩)] "A" = .found (some 2) ∧
    OrderBook.spread [("C", ⟨[(12, 1)], [(10, 1)]⟩)] "C" = .found (some (-2)) := by
  have h := (summary_stats_formulas [("A", ⟨[(10, 5)], [(12, 3)]⟩)] "A").1
    10 5 12 3 rfl rfl
  have h2 := (summary_stats_formulas [("C", ⟨[(12, 1)], [(10, 1)]⟩)] "C").1
    12 1 10 1 rfl rfl
  refine ⟨?_, ?_, ?_, ?_⟩
  · rw [h.1]
    norm_num
  · rw [h.2.1]
    norm_num
  · rw [h.2.2]
    norm_num
  · rw [h2.2.2]
    norm_num

theorem pruneWindow_cons_keep (now a : Rat) (l : List Rat) (h : ¬(a < now - 1)) :
    pruneWindow now (a :: l) = a :: l := by
  simp [pruneWindow, List.dropWhile_cons, h]

theorem pruneWindow_dropAll (now : Rat) (w : List Rat) (h : ∀ x ∈ w, x < now - 1) :
    pruneWindow now w = [] := by
  induction w with
  | nil => rfl
  | cons a l ih =>
    have ha : a < now - 1 := h a (by simp)
    have hrest : pruneWindow now l = [] := ih (fun x hx => h x (by simp [hx]))
    simp only [pruneWindow, List.dropWhile_cons] at hrest ⊢
    simp [ha, hrest]

/-- C5: every Prioritizer command (place_limit, place_market, remove_all)
first prunes timestamps older than now − 1s, then drops the command without
appending when the pruned window already holds at least the limit, else
appends now and forwards; in particular with limit 5, of 6 calls within
200ms exactly 5 are forwarded (the window keeping the five admitted
timestamps) and a 7th call 1100ms later is forwarded. -/
theorem rate_limiter_admission :
    (∀ (limit : Nat) (w : List Rat) (now : Rat),
       Prioritizer.place_market limit w now = Prioritizer.place_limit limit w now ∧
       Prioritizer.remove_all limit w now = Prioritizer.place_limit limit w now) ∧
    (∀ (limit : Nat) (w : List Rat) (now : Rat),
       (limit ≤ (pruneWindow now w).length →
          Prioritizer.place_limit limit w now = (pruneWindow now w, false)) ∧
       ((pruneWindow now w).length < limit →
          Prioritizer.place_limit limit w now = (pruneWindow now w ++ [now], true))) ∧
    (∀ t1 t2 t3 t4 t5 t6 t7 : Rat,
       t1 ≤ t2 → t2 ≤ t3 → t3 ≤ t4 → t4 ≤ t5 → t5 ≤ t6 → t6 ≤ t1 + 1 / 5 →
       t6 + 11 / 10 ≤ t7 →
       (Prioritizer.runLimitCalls 5 [t1, t2, t3, t4, t5, t6] []).2 = 5 ∧
       (Prioritizer.runLimitCalls 5 [t1, t2, t3, t4, t5, t6] []).1 =
         [t1, t2, t3, t4, t5] ∧
       (Prioritizer.place_limit 5
         (Prioritizer.runLimitCalls 5 [t1, t2, t3, t4, t5, t6] []).1 t7).2 = true) := by
  refine ⟨fun limit w now => ⟨rfl, rfl⟩, ?_, ?_⟩
  · intro limit w now
    constructor
    · intro h
      unfold Prioritizer.place_limit
      rw [if_pos h]
    · intro h
      unfold Prioritizer.place_limit
      rw [if_neg (by exact Nat.not_le.mpr h)]
  · intro t1 t2 t3 t4 t5 t6 t7 h12 h23 h34 h45 h56 h6 h7
    have hp1 : Prioritizer.place_limit 5 [] t1 = ([t1], true) := by
      unfold Prioritizer.place_limit
      simp [pruneWindow]
    have hk2 : pruneWindow t2 [t1] = [t1] :=
      pruneWindow_cons_keep _ _ _ (by intro hcon; linarith)
    have hp2 : Prioritizer.place_limit 5 [t1] t2 = ([t1, t2], true) := by
      unfold Prioritizer.place_limit
      rw [hk2]
      simp
    have hk3 : pruneWindow t3 [t1, t2] = [t1, t2] :=
      pruneWindow_cons_keep _ _ _ (by intro hcon; linarith)
    have hp3 : Prioritizer.place_limit 5 [t1, t2] t3 = ([t1, t2, t3], true) := by
      unfold Prioritizer.place_limit
      rw [hk3]
      simp
    have hk4 : pruneWindow t4 [t1, t2, t3] = [t1, t2, t3] :=
      pruneWindow_cons_keep _ _ _ (by intro hcon; linarith)
    have hp4 : Prioritizer.place_limit 5 [t1, t2, t3] t4 = ([t1, t2, t3, t4], true) := by
      unfold Prioritizer.place_limit
      rw [hk4]
      simp
    have hk5 : pruneWindow t5 [t1, t2, t3, t4] = [t1, t2, t3, t4] :=
      pruneWindow_cons_keep _ _ _ (by intro hcon; linarith)
    have hp5 : Prioritizer.place_limit 5 [t1, t2, t3, t4] t5 =
        ([t1, t2, t3, t4, t5], true) := by
      unfold Prioritizer.place_limit
      rw [hk5]
      simp
    have hk6 : pruneWindow t6 [t1, t2, t3, t4, t5] = [t1, t2, t3, t4, t5] :=
      pruneWindow_cons_keep _ _ _ (by intro hcon; linarith)
    have hp6 : Prioritizer.place_limit 5 [t1, t2, t3, t4, t5] t6 =
        ([t1, t2, t3, t4, t5], false) := by
      unfold Prioritizer.place_limit
      rw [hk6]
      simp
    have hrun : Prioritizer.runLimitCalls 5 [t1, t2, t3, t4, t5, t6] [] =
        ([t1, t2, t3, t4, t5], 5) := by
      simp only [Prioritizer.runLimitCalls, hp1, hp2, hp3, hp4, hp5, hp6]
      norm_num
    have hk7 : pruneWindow t7 [t1, t2, t3, t4, t5] = [] := by
      apply pruneWindow_dropAll
      intro x hx
      rcases List.mem_cons.mp hx with rfl | hx
      · linarith
      rcases List.mem_cons.mp hx with rfl | hx
      · linarith
      rcases List.mem_cons.mp hx with rfl | hx
      · linarith
      rcases List.mem_cons.mp hx with rfl | hx
      · linarith
      rcases List.mem_cons.mp hx with rfl | hx
      · linarith
      · exact absurd hx (by simp)
    have hp7 : Prioritizer.place_limit 5 [t1, t2, t3, t4, t5] t7 = ([t7], true) := by
      unfold Prioritizer.place_limit
      rw [hk7]
      simp
    rw [hrun]
    exact ⟨rfl, rfl, by rw [hp7]⟩

/-- Witness for C5 at concrete instants: six calls at times 0,…,0,1/10 (all
within 200ms) and a seventh at 13/10 (1200ms after the sixth). -/
theorem rate_limiter_admission_witness :
    (Prioritizer.runLimitCalls 5 [0, 0, 0, 0, 0, 1 / 10] []).2 = 5 ∧
    (Prioritizer.place_limit 5
      (Prioritizer.runLimitCalls 5 [0, 0, 0, 0, 0, 1 / 10] []).1 (13 / 10)).2 = true := by
  have h := rate_limiter_admission.2.2 0 0 0 0 0 (1 / 10) (13 / 10)
    (by norm_num) (by norm_num) (by norm_num) (by norm_num) (by norm_num)
    (by norm_num) (by norm_num)
  exact ⟨h.1, h.2.2⟩

/-- C6 (evidence of the code bug): after a first subscribe() completes, the
subscription is active (event set, one background task); a second call to
subscribe() nevertheless installs a fresh event and spawns a second
_subscribe_ws handshake/read task, because the method never returns early
after waiting on the existing subscription — contradicting the documented
idempotency. -/
theorem subscribe_spawns_second_task :
    (WebSocketClient.subscribe ⟨none, 0⟩).subscribedEvent = some true ∧
    (WebSocketClient.subscribe ⟨none, 0⟩).tasksStarted = 1 ∧
    (WebSocketClient.subscribe (WebSocketClient.subscribe ⟨none, 0⟩)).tasksStarted = 2 := by
  decide

theorem jget_isSome_eq_hasKey (k : String) (fs : List (String × JValue)) :
    (jget k fs).isSome = hasKey k fs := by
  induction fs with
  | nil => rfl
  | cons e rest ih =>
    obtain ⟨k', v⟩ := e
    by_cases h : k' = k
    · simp [jget, hasKey, h]
    · simp [jget, hasKey, h, ih]

/-- C3 counterexample: a frame on the public order-book topic whose content
field decodes to a list (containing one malformed update entry) triggers the
call to update_volumes, but the order-book-changed callback is NOT invoked
because the batch raises inside the handler's try block — so "calls
apply_updates and then the callback iff the destination is the order-book
topic and content decodes to a list" fails at this input. -/
theorem routing_callback_skipped_counterexample :
    (WebSocketClient.on_message
        (fun s => if s = "X" then some (.arr [.obj []]) else none) true
        (some "/topic/orderbook") (some (.obj [("content", .str "X")]))
        ⟨⟨[], []⟩, emptyPortfolio⟩).2 =
      ⟨true, false, false, false⟩ ∧
    (fun s => if s = "X" then some (JValue.arr [JValue.obj []]) else none) "X" =
      some (.arr [.obj []]) :=
  ⟨rfl, rfl⟩

theorem on_message_obj_eq (decode : String → Option JValue) (ss : Bool)
    (dest : Option String) (fs : List (String × JValue)) (st : ClientState) :
    WebSocketClient.on_message decode ss dest (some (.obj fs)) st =
      if dest = some "/topic/orderbook" then
        match jget "content" fs with
        | some (.str cs) =>
          match decode cs with
          | some (.arr elems) =>
            match FilteredOrderBook.update_volumes st.fob (elems.map jToUpdateEntry)
                st.portfolio.orders with
            | (fob', none) => ({ st with fob := fob' }, ⟨true, ss, false, false⟩)
            | (fob', some _) => ({ st with fob := fob' }, ⟨true, false, false, false⟩)
          | _ => (st, noActions)
        | _ => (st, noActions)
      else if dest = some "/user/queue/private" then
        if hasKey "balance" fs || hasKey "Orders" fs then
          match UserPortfolio.update_portfolio st.portfolio (.obj fs) with
          | (p', false) => ({ st with portfolio := p' }, ⟨false, false, true, ss⟩)
          | (p', true) => ({ st with portfolio := p' }, ⟨false, false, true, false⟩)
        else (st, noActions)
      else (st, noActions) := by
  by_cases hd1 : dest = some "/topic/orderbook"
  · rw [if_pos hd1]
    simp only [WebSocketClient.on_message]
    rw [if_pos hd1]
    rw [show jmem "content" (JValue.obj fs) = some (hasKey "content" fs) from rfl]
    cases hk : hasKey "content" fs with
    | false =>
      have hg : jget "content" fs = none := by
        have h1 := jget_isSome_eq_hasKey "content" fs
        rw [hk] at h1
        exact Option.not_isSome_iff_eq_none.mp (by simp [h1])
      rw [hg]
    | true =>
      obtain ⟨v, hv⟩ : ∃ v, jget "content" fs = some v := by
        have h1 := jget_isSome_eq_hasKey "content" fs
        rw [hk] at h1
        exact Option.isSome_iff_exists.mp h1
      rw [show jindex (JValue.obj fs) "content" = jget "content" fs from rfl, hv]
      cases v with
      | str cs =>
        dsimp only
        cases hdec : decode cs with
        | none => rfl
        | some c =>
          cases c with
          | arr elems =>
            cases hupd : FilteredOrderBook.update_volumes st.fob
                (elems.map jToUpdateEntry) st.portfolio.orders with
            | mk fob' e =>
              cases e with
              | none => rfl
              | some e' => rfl
          | str s2 => rfl
          | num q => rfl
          | jbool b => rfl
          | null => rfl
          | obj fs2 => rfl
      | num q => rfl
      | jbool b => rfl
      | null => rfl
      | arr xs => rfl
      | obj fs2 => rfl
  · rw [if_neg hd1]
    by_cases hd2 : dest = some "/user/queue/private"
    · rw [if_pos hd2]
      simp only [WebSocketClient.on_message]
      rw [if_neg hd1, if_pos hd2]
      rw [show truthy (JValue.obj fs) = !fs.isEmpty from rfl]
      rw [show jmem "balance" (JValue.obj fs) = some (hasKey "balance" fs) from rfl]
      rw [show jmem "Orders" (JValue.obj fs) = some (hasKey "Orders" fs) from rfl]
      cases hemp : fs.isEmpty with
      | true =>
        have hb : hasKey "balance" fs = false := by
          cases fs with
          | nil => rfl
          | cons e rest => exact absurd hemp (by simp)
        have ho : hasKey "Orders" fs = false := by
          cases fs with
          | nil => rfl
          | cons e rest => exact absurd hemp (by simp)
        rw [hb, ho]
        rfl
      | false =>
        cases hb : hasKey "balance" fs with
        | true =>
          simp only [Bool.not_false, if_true, Bool.true_or]
        | false =>
          simp only [Bool.not_false, if_true, Bool.false_or]
          cases ho : hasKey "Orders" fs with
          | true =>
            cases hupd : UserPortfolio.update_portfolio st.portfolio (.obj fs) with
            | mk p' raised =>
              cases raised with
              | false => rfl
              | true => rfl
          | false => rfl
    · rw [if_neg hd2]
      simp only [WebSocketClient.on_message]
      rw [if_neg hd1, if_neg hd2]

/-- C3 (amended, with a registered strategy and an object JSON body):
update_portfolio is called iff the destination is the private queue topic
and the body has a balance or an Orders key, and the portfolio-changed
callback follows iff additionally update_portfolio completes without
raising; update_volumes is called iff the destination is the order-book
topic and the body's content field is a string decoding to a JSON list, and
the order-book-changed callback follows iff additionally the decoded batch
applies without error; a frame on any other topic leaves the order book and
the portfolio untouched and performs no call at all. -/
theorem routing_characterization (decode : String → Option JValue)
    (dest : Option String) (fs : List (String × JValue)) (st : ClientState) :
    ((WebSocketClient.on_message decode true dest (some (.obj fs)) st).2.portfolioReplaced
        = true ↔
      dest = some "/user/queue/private" ∧
        (hasKey "balance" fs = true ∨ hasKey "Orders" fs = true)) ∧
    ((WebSocketClient.on_message decode true dest (some (.obj fs)) st).2.portfolioCallback
        = true ↔
      dest = some "/user/queue/private" ∧
        (hasKey "balance" fs = true ∨ hasKey "Orders" fs = true) ∧
        (UserPortfolio.update_portfolio st.portfolio (.obj fs)).2 = false) ∧
    ((WebSocketClient.on_message decode true dest (some (.obj fs)) st).2.orderbookUpdated
        = true ↔
      dest = some "/topic/orderbook" ∧
        ∃ cs elems, jget "content" fs = some (.str cs) ∧
          decode cs = some (.arr elems)) ∧
    ((WebSocketClient.on_message decode true dest (some (.obj fs)) st).2.orderbookCallback
        = true ↔
      dest = some "/topic/orderbook" ∧
        ∃ cs elems, jget "content" fs = some (.str cs) ∧
          decode cs = some (.arr elems) ∧
          (FilteredOrderBook.update_volumes st.fob (elems.map jToUpdateEntry)
            st.portfolio.orders).2 = none) ∧
    (dest ≠ some "/topic/orderbook" → dest ≠ some "/user/queue/private" →
      WebSocketClient.on_message decode true dest (some (.obj fs)) st = (st, noActions)) := by
  rw [on_message_obj_eq]
  by_cases hd1 : dest = some "/topic/orderbook"
  · have hd2 : ¬dest = some "/user/queue/private" := by
      rw [hd1]
      simp
    rw [if_pos hd1]
    cases hj : jget "content" fs with
    | none =>
      refine ⟨?_, ?_, ?_, ?_, ?_⟩ <;> simp [noActions, hd1, hd2, hj]
    | some v =>
      cases v with
      | str cs =>
        cases hdec : decode cs with
        | none =>
          refine ⟨?_, ?_, ?_, ?_, ?_⟩ <;> simp [noActions, hd1, hd2, hj, hdec]
        | some c =>
          cases c with
          | arr elems0 =>
            cases hupd : FilteredOrderBook.update_volumes st.fob
                (elems0.map jToUpdateEntry) st.portfolio.orders with
            | mk fob' e =>
              cases e with
              | none =>
                refine ⟨?_, ?_, ?_, ?_, ?_⟩ <;>
                  simp [noActions, hd1, hd2, hj, hdec, hupd]
              | some err =>
                refine ⟨?_, ?_, ?_, ?_, ?_⟩ <;>
                  simp [noActions, hd1, hd2, hj, hdec, hupd]
          | str s2 =>
            refine ⟨?_, ?_, ?_, ?_, ?_⟩ <;> simp [noActions, hd1, hd2, hj, hdec]
          | num q =>
            refine ⟨?_, ?_, ?_, ?_, ?_⟩ <;> simp [noActions, hd1, hd2, hj, hdec]
          | jbool b =>
            refine ⟨?_, ?_, ?_, ?_, ?_⟩ <;> simp [noActions, hd1, hd2, hj, hdec]
          | null =>
            refine ⟨?_, ?_, ?_, ?_, ?_⟩ <;> simp [noActions, hd1, hd2, hj, hdec]
          | obj fs2 =>
            refine ⟨?_, ?_, ?_, ?_, ?_⟩ <;> simp [noActions, hd1, hd2, hj, hdec]
      | num q =>
        refine ⟨?_, ?_, ?_, ?_, ?_⟩ <;> simp [noActions, hd1, hd2, hj]
      | jbool b =>
        refine ⟨?_, ?_, ?_, ?_, ?_⟩ <;> simp [noActions, hd1, hd2, hj]
      | null =>
        refine ⟨?_, ?_, ?_, ?_, ?_⟩ <;> simp [noActions, hd1, hd2, hj]
      | arr xs =>
        refine ⟨?_, ?_, ?_, ?_, ?_⟩ <;> simp [noActions, hd1, hd2, hj]
      | obj fs2 =>
        refine ⟨?_, ?_, ?_, ?_, ?_⟩ <;> simp [noActions, hd1, hd2, hj]
  · rw [if_neg hd1]
    by_cases hd2 : dest = some "/user/queue/private"
    · rw [if_pos hd2]
      cases hcond : (hasKey "balance" fs || hasKey "Orders" fs) with
      | false =>
        have hb : hasKey "balance" fs = false := by
          rcases Bool.or_eq_false_iff.mp hcond with ⟨h1, _⟩
          exact h1
        have ho : hasKey "Orders" fs = false := by
          rcases Bool.or_eq_false_iff.mp hcond with ⟨_, h2⟩
          exact h2
        refine ⟨?_, ?_, ?_, ?_, ?_⟩ <;> simp [noActions, hd1, hd2, hb, ho]
      | true =>
        have hor : hasKey "balance" fs = true ∨ hasKey "Orders" fs = true :=
          Bool.or_eq_true_iff.mp hcond
        cases hupd : UserPortfolio.update_portfolio st.portfolio (.obj fs) with
        | mk p' raised =>
          cases raised with
          | false =>
            refine ⟨?_, ?_, ?_, ?_, ?_⟩ <;> simp [noActions, hd1, hd2, hupd, hor]
          | true =>
            refine ⟨?_, ?_, ?_, ?_, ?_⟩ <;> simp [noActions, hd1, hd2, hupd, hor]
    · rw [if_neg hd2]
      refine ⟨?_, ?_, ?_, ?_, ?_⟩ <;> simp [noActions, hd1, hd2]

/-- Witness for C3 (amended) at a concrete input: a frame on an unrelated
topic, whose body even contains a balance key, performs no call and leaves
the state untouched. -/
theorem routing_characterization_witness :
    WebSocketClient.on_message (fun _ => none) true (some "/topic/news")
        (some (.obj [("balance", .num 1)])) ⟨⟨[], []⟩, emptyPortfolio⟩ =
      (⟨⟨[], []⟩, emptyPortfolio⟩, noActions) :=
  (routing_characterization (fun _ => none) (some "/topic/news")
    [("balance", .num 1)] ⟨⟨[], []⟩, emptyPortfolio⟩).2.2.2.2
    (by decide) (by decide)

end DataChallenge
